import Mathlib

/-!
Verification of the Deezer download client (src/downloader/deezer/client.py)
against its natural-language specification.

Bytes are modelled as natural numbers (values < 256 where it matters); byte
strings as `List Nat`.  The Blowfish block primitive is an external library
call, so it is abstracted as a function on 8-byte blocks; the CBC chaining
mode, the fixed IV, the 2048-byte chunked selection logic, the MD5-based key
derivation, the JSON response handling and the error classification are all
translated from the source.
-/

namespace Deezer

/-- Byte-wise XOR of two byte strings (used by CBC chaining). -/
def bxor (a b : List Nat) : List Nat := List.zipWith (fun x y => x ^^^ y) a b

/-- The streaming chunk size used by `_decrypt_track` (aiter_bytes(chunk_size=2048)). -/
def CHUNK_SIZE : Nat := 2048

/-- The Blowfish cipher block size in bytes. -/
def BLOCK_SIZE : Nat := 8

/-- The fixed initialization vector `bytes([i for i in range(8)])` from `_decrypt_chunk`. -/
def blowfishIV : List Nat := [0, 1, 2, 3, 4, 5, 6, 7]

/-- Structural worker for `chunksOf`; `fuel` bounds the number of chunks
produced, so the recursion is structural and kernel-reducible.  The `0`
fuel case is unreachable whenever `fuel` is at least the list length. -/
def chunksOfGo (n : Nat) : Nat → List α → List (List α)
  | _, [] => []
  | 0, a :: t => [a :: t]
  | fuel + 1, a :: t => (a :: t).take n :: chunksOfGo n fuel (t.drop (n - 1))

/-- Split a list into consecutive chunks of size `n` (the final chunk may be
shorter).  Models both `aiter_bytes(chunk_size=2048)` re-chunking and the
block split performed by the CBC mode. -/
def chunksOf (n : Nat) (l : List α) : List (List α) := chunksOfGo n l.length l

theorem chunksOfGo_fuel_irrel (n : Nat) (fuel1 : Nat) :
    ∀ (fuel2 : Nat) (l : List α), l.length ≤ fuel1 → l.length ≤ fuel2 →
      chunksOfGo n fuel1 l = chunksOfGo n fuel2 l := by
  induction fuel1 with
  | zero =>
    intro fuel2 l h1 _
    cases l with
    | nil => cases fuel2 <;> rfl
    | cons a t => simp at h1
  | succ f1 ih =>
    intro fuel2 l h1 h2
    cases l with
    | nil => cases fuel2 <;> rfl
    | cons a t =>
      cases fuel2 with
      | zero => simp at h2
      | succ f2 =>
        simp only [chunksOfGo]
        simp only [List.length_cons] at h1 h2
        have hlen : (t.drop (n - 1)).length ≤ f1 := by
          rw [List.length_drop]; omega
        have hlen2 : (t.drop (n - 1)).length ≤ f2 := by
          rw [List.length_drop]; omega
        rw [ih f2 (t.drop (n - 1)) hlen hlen2]

theorem chunksOf_nil (n : Nat) : chunksOf n ([] : List α) = [] := rfl

theorem chunksOf_cons (n : Nat) (hn : 0 < n) (a : α) (t : List α) :
    chunksOf n (a :: t) = (a :: t).take n :: chunksOf n ((a :: t).drop n) := by
  have hdrop : (a :: t).drop n = t.drop (n - 1) := by
    obtain ⟨m, rfl⟩ := Nat.exists_eq_add_of_lt hn
    simp
  show chunksOfGo n (t.length + 1) (a :: t) = _
  simp only [chunksOfGo, hdrop]
  rw [chunksOfGo_fuel_irrel n t.length (t.drop (n - 1)).length (t.drop (n - 1))
    (by rw [List.length_drop]; omega) (Nat.le_refl _)]
  rfl

theorem chunksOf_eq (n : Nat) (hn : 0 < n) (l : List α) (hl : l ≠ []) :
    chunksOf n l = l.take n :: chunksOf n (l.drop n) := by
  cases l with
  | nil => exact absurd rfl hl
  | cons a t => exact chunksOf_cons n hn a t

/-- Concatenating the chunks gives the original list back. -/
theorem flatten_chunksOf (n : Nat) (hn : 0 < n) (l : List α) :
    (chunksOf n l).flatten = l := by
  have H : ∀ k, ∀ l : List α, l.length = k → (chunksOf n l).flatten = l := by
    intro k
    induction k using Nat.strong_induction_on with
    | _ k ih =>
      intro l hk
      cases l with
      | nil => simp [chunksOf_nil]
      | cons a t =>
        rw [chunksOf_cons n hn a t]
        have hlt : ((a :: t).drop n).length < k := by
          simp only [List.length_drop, List.length_cons] at *
          omega
        rw [List.flatten_cons, ih _ hlt _ rfl, List.take_append_drop]
  exact H l.length l rfl

/-- Each chunk is the corresponding take/drop window of the original list. -/
theorem chunksOf_getD (n : Nat) (hn : 0 < n) (l : List α) (i : Nat)
    (h : i < (chunksOf n l).length) :
    (chunksOf n l).getD i [] = (l.drop (n * i)).take n := by
  induction i generalizing l with
  | zero =>
    cases l with
    | nil => simp [chunksOf_nil] at h
    | cons a t => rw [chunksOf_cons n hn a t]; simp
  | succ i ih =>
    cases l with
    | nil => simp [chunksOf_nil] at h
    | cons a t =>
      rw [chunksOf_cons n hn a t] at h ⊢
      simp only [List.length_cons, Nat.succ_lt_succ_iff] at h
      simp only [List.getD_cons_succ]
      rw [ih _ h, List.drop_drop]
      have heq : n + n * i = n * (i + 1) := by ring
      rw [heq]

/-- Every chunk of a list whose length is an exact multiple of n has length
exactly n. -/
theorem chunksOf_length_of_mod (n : Nat) (hn : 0 < n) (l : List α)
    (hmod : l.length % n = 0) : ∀ c ∈ chunksOf n l, c.length = n := by
  have H : ∀ k, ∀ l : List α, l.length = k → l.length % n = 0 →
      ∀ c ∈ chunksOf n l, c.length = n := by
    intro k
    induction k using Nat.strong_induction_on with
    | _ k ih =>
      intro l hk hmod
      cases l with
      | nil => simp [chunksOf_nil]
      | cons a t =>
        rw [chunksOf_cons n hn a t]
        intro c hc
        have hle : n ≤ (a :: t).length := by
          rcases Nat.lt_or_ge (a :: t).length n with hlt | hge
          · rw [Nat.mod_eq_of_lt hlt] at hmod
            simp only [List.length_cons] at hmod
            omega
          · exact hge
        rcases List.mem_cons.mp hc with rfl | hmem
        · rw [List.length_take]; omega
        · have hlt : ((a :: t).drop n).length < k := by
            simp only [List.length_drop, List.length_cons]
            simp only [List.length_cons] at hk
            omega
          have hmod2 : ((a :: t).drop n).length % n = 0 := by
            rw [List.length_drop]
            have hdvd : n ∣ (a :: t).length := Nat.dvd_of_mod_eq_zero hmod
            obtain ⟨m, hm⟩ := Nat.dvd_sub' hdvd dvd_rfl
            rw [hm]
            exact Nat.mul_mod_right n m
          exact ih _ hlt _ rfl hmod2 _ hmem
  exact H l.length l rfl hmod

/-- Chunking the concatenation of exact-size chunks recovers them. -/
theorem chunksOf_flatten_eq (n : Nat) (hn : 0 < n) (cs : List (List α))
    (hall : ∀ c ∈ cs, c.length = n) : chunksOf n cs.flatten = cs := by
  induction cs with
  | nil => simp [chunksOf_nil]
  | cons c cs ih =>
    have hc : c.length = n := hall c (List.mem_cons_self c cs)
    have hne : (c :: cs).flatten ≠ [] := by
      simp only [List.flatten_cons]
      intro hcontra
      have h2 := List.append_eq_nil.mp hcontra
      have h3 : c.length = 0 := by rw [h2.1]; rfl
      omega
    have ht : List.take n (c ++ cs.flatten) = c := by
      rw [← hc]; exact List.take_left c cs.flatten
    have hd : List.drop n (c ++ cs.flatten) = cs.flatten := by
      rw [← hc]; exact List.drop_left c cs.flatten
    rw [chunksOf_eq n hn _ hne]
    simp only [List.flatten_cons]
    rw [ht, hd, ih (fun d hd => hall d (List.mem_cons_of_mem c hd))]

/-! ## CBC mode over an abstract block primitive

The Blowfish block function itself lives in the pycryptodome library, outside
this repository; it is abstracted as a function `D` (decryption direction) or
`E` (encryption direction) on 8-byte blocks.  The CBC chaining performed by
`Blowfish.new(key, Blowfish.MODE_CBC, iv).decrypt(data)` is modelled
explicitly: each ciphertext block is fed to `D` and XORed with the previous
ciphertext block (the IV for the first block). -/

/-- CBC decryption of a list of ciphertext blocks, with chaining value `prev`. -/
def cbcDecryptBlocks (D : List Nat → List Nat) : List Nat → List (List Nat) → List (List Nat)
  | _, [] => []
  | prev, c :: cs => bxor (D c) prev :: cbcDecryptBlocks D c cs

/-- CBC encryption of a list of plaintext blocks, with chaining value `prev`.
This is the inverse-direction mode used to state the round-trip law. -/
def cbcEncryptBlocks (E : List Nat → List Nat) : List Nat → List (List Nat) → List (List Nat)
  | _, [] => []
  | prev, p :: ps =>
    let c := E (bxor p prev)
    c :: cbcEncryptBlocks E c ps

/-- Model of `_decrypt_chunk`: Blowfish-CBC decryption of one chunk with the
fixed IV `bytes([i for i in range(8)])`. -/
def decrypt_chunk (D : List Nat → List Nat) (data : List Nat) : List Nat :=
  (cbcDecryptBlocks D blowfishIV (chunksOf BLOCK_SIZE data)).flatten

/-- CBC encryption of one chunk with the same fixed IV (inverse direction of
`decrypt_chunk`, used to state the round-trip law). -/
def encrypt_chunk (E : List Nat → List Nat) (data : List Nat) : List Nat :=
  (cbcEncryptBlocks E blowfishIV (chunksOf BLOCK_SIZE data)).flatten

/-- Model of the loop body of `_decrypt_track`: the chunk at iteration count
`i` is decrypted iff `i % 3 == 0 and len(data) == 2048`; all other chunks are
written through unmodified. -/
def decrypt_track_chunks (D : List Nat → List Nat) : Nat → List (List Nat) → List (List Nat)
  | _, [] => []
  | i, c :: cs =>
    (if i % 3 = 0 ∧ c.length = CHUNK_SIZE then decrypt_chunk D c else c)
      :: decrypt_track_chunks D (i + 1) cs

/-- Model of `_decrypt_track` on the downloaded byte stream: split into
2048-byte chunks, decrypt the selected ones, concatenate in order. -/
def decrypt_track (D : List Nat → List Nat) (stream : List Nat) : List Nat :=
  (decrypt_track_chunks D 0 (chunksOf CHUNK_SIZE stream)).flatten

/-- Chunk-wise re-encryption with the same selection rule (ordinals 0, 3, 6,
... at full chunk size), used to state the round-trip law. -/
def encrypt_track_chunks (E : List Nat → List Nat) : Nat → List (List Nat) → List (List Nat)
  | _, [] => []
  | i, c :: cs =>
    (if i % 3 = 0 ∧ c.length = CHUNK_SIZE then encrypt_chunk E c else c)
      :: encrypt_track_chunks E (i + 1) cs

/-- Re-encryption of a whole stream with the same selection rule. -/
def encrypt_track (E : List Nat → List Nat) (stream : List Nat) : List Nat :=
  (encrypt_track_chunks E 0 (chunksOf CHUNK_SIZE stream)).flatten

theorem length_bxor (a b : List Nat) : (bxor a b).length = min a.length b.length := by
  simp [bxor]

/-- XOR-in then XOR-out with the same mask is the identity on byte strings of
matching length. -/
theorem bxor_bxor_cancel (a b : List Nat) (h : a.length = b.length) :
    bxor (bxor a b) b = a := by
  induction a generalizing b with
  | nil => cases b <;> simp [bxor]
  | cons x xs ih =>
    cases b with
    | nil => simp at h
    | cons y ys =>
      simp only [List.length_cons, Nat.succ_inj] at h
      simp only [bxor, List.zipWith_cons_cons]
      rw [Nat.xor_assoc, Nat.xor_self, Nat.xor_zero]
      exact congrArg (x :: ·) (ih ys h)

/-- CBC decryption keeps the block count. -/
theorem cbcDecryptBlocks_length (D : List Nat → List Nat) (prev : List Nat)
    (cs : List (List Nat)) : (cbcDecryptBlocks D prev cs).length = cs.length := by
  induction cs generalizing prev with
  | nil => rfl
  | cons c cs ih => simp [cbcDecryptBlocks, ih]

/-- If the block primitive maps 8-byte blocks to 8-byte blocks, CBC decryption
of 8-byte blocks produces 8-byte blocks. -/
theorem cbcDecryptBlocks_block_length (D : List Nat → List Nat)
    (hD : ∀ b : List Nat, b.length = BLOCK_SIZE → (D b).length = BLOCK_SIZE)
    (prev : List Nat) (cs : List (List Nat)) (hprev : prev.length = BLOCK_SIZE)
    (hall : ∀ c ∈ cs, c.length = BLOCK_SIZE) :
    ∀ d ∈ cbcDecryptBlocks D prev cs, d.length = BLOCK_SIZE := by
  induction cs generalizing prev with
  | nil => simp [cbcDecryptBlocks]
  | cons c cs ih =>
    intro d hd
    have hc : c.length = BLOCK_SIZE := hall c (List.mem_cons_self c cs)
    rcases List.mem_cons.mp hd with rfl | hmem
    · rw [length_bxor, hD c hc, hprev]
      exact Nat.min_self _
    · exact ih c hc (fun e he => hall e (List.mem_cons_of_mem c he)) d hmem

/-- Lists of lists with equal length profiles have equally long
concatenations. -/
theorem flatten_length_congr (as bs : List (List α))
    (h : as.map List.length = bs.map List.length) :
    as.flatten.length = bs.flatten.length := by
  induction as generalizing bs with
  | nil => cases bs with
    | nil => rfl
    | cons b bs => simp at h
  | cons a as ih =>
    cases bs with
    | nil => simp at h
    | cons b bs =>
      simp only [List.map_cons, List.cons.injEq] at h
      simp only [List.flatten_cons, List.length_append, h.1, ih bs h.2]

/-- Decrypting one full chunk preserves its length (the chunk splits into
exact 8-byte blocks, each decrypted block is 8 bytes again). -/
theorem length_decrypt_chunk (D : List Nat → List Nat)
    (hD : ∀ b : List Nat, b.length = BLOCK_SIZE → (D b).length = BLOCK_SIZE)
    (data : List Nat) (hmod : data.length % BLOCK_SIZE = 0) :
    (decrypt_chunk D data).length = data.length := by
  have hblocks : ∀ c ∈ chunksOf BLOCK_SIZE data, c.length = BLOCK_SIZE :=
    chunksOf_length_of_mod BLOCK_SIZE (by decide) data hmod
  have hout : ∀ d ∈ cbcDecryptBlocks D blowfishIV (chunksOf BLOCK_SIZE data),
      d.length = BLOCK_SIZE :=
    cbcDecryptBlocks_block_length D hD blowfishIV _ (by decide) hblocks
  have hmap : (cbcDecryptBlocks D blowfishIV (chunksOf BLOCK_SIZE data)).map List.length
      = (chunksOf BLOCK_SIZE data).map List.length := by
    have h1 : (cbcDecryptBlocks D blowfishIV (chunksOf BLOCK_SIZE data)).map List.length
        = List.replicate (chunksOf BLOCK_SIZE data).length BLOCK_SIZE := by
      rw [List.eq_replicate_iff]
      constructor
      · simp [cbcDecryptBlocks_length]
      · intro x hx
        obtain ⟨d, hd, rfl⟩ := List.mem_map.mp hx
        exact hout d hd
    have h2 : (chunksOf BLOCK_SIZE data).map List.length
        = List.replicate (chunksOf BLOCK_SIZE data).length BLOCK_SIZE := by
      rw [List.eq_replicate_iff]
      constructor
      · simp
      · intro x hx
        obtain ⟨d, hd, rfl⟩ := List.mem_map.mp hx
        exact hblocks d hd
    rw [h1, h2]
  calc (decrypt_chunk D data).length
      = (chunksOf BLOCK_SIZE data).flatten.length :=
        flatten_length_congr _ _ hmap
    _ = data.length := by rw [flatten_chunksOf BLOCK_SIZE (by decide) data]

/-- The per-chunk length profile of the decrypted stream equals that of the
input stream: selected chunks have length exactly 2048 and stay 2048 after
decryption, all other chunks pass through untouched. -/
theorem decrypt_track_chunks_map_length (D : List Nat → List Nat)
    (hD : ∀ b : List Nat, b.length = BLOCK_SIZE → (D b).length = BLOCK_SIZE)
    (k : Nat) (cs : List (List Nat)) :
    (decrypt_track_chunks D k cs).map List.length = cs.map List.length := by
  induction cs generalizing k with
  | nil => rfl
  | cons c cs ih =>
    simp only [decrypt_track_chunks, List.map_cons, ih]
    congr 1
    split
    · next hsel =>
      rw [length_decrypt_chunk D hD c (by rw [hsel.2]; decide), hsel.2]
    · rfl

theorem decrypt_track_chunks_getD (D : List Nat → List Nat) (cs : List (List Nat)) :
    ∀ (k i : Nat), i < cs.length →
    (decrypt_track_chunks D k cs).getD i [] =
      (if (k + i) % 3 = 0 ∧ (cs.getD i []).length = CHUNK_SIZE
       then decrypt_chunk D (cs.getD i []) else cs.getD i []) := by
  induction cs with
  | nil => intro k i h; simp at h
  | cons c cs ih =>
    intro k i h
    cases i with
    | zero => simp [decrypt_track_chunks]
    | succ i =>
      simp only [List.length_cons, Nat.succ_lt_succ_iff] at h
      simp only [decrypt_track_chunks, List.getD_cons_succ]
      rw [ih (k + 1) i h]
      have heq : k + 1 + i = k + (i + 1) := by omega
      rw [heq]

/-- C1: the stream decryptor applies the block cipher to the chunk at ordinal
`i` (the window `stream[2048*i : 2048*(i+1)]`) if and only if `i` is a
multiple of 3 and the chunk is exactly 2048 bytes long; every other chunk is
written to the output byte-for-byte unmodified.  The first conjunct records
that the output stream is exactly the in-order concatenation of these
per-chunk results. -/
theorem decrypt_track_chunk_selection (D : List Nat → List Nat) (stream : List Nat)
    (i : Nat) (h : i < (chunksOf CHUNK_SIZE stream).length) :
    decrypt_track D stream
        = (decrypt_track_chunks D 0 (chunksOf CHUNK_SIZE stream)).flatten ∧
    (decrypt_track_chunks D 0 (chunksOf CHUNK_SIZE stream)).getD i [] =
      (if i % 3 = 0 ∧ ((stream.drop (CHUNK_SIZE * i)).take CHUNK_SIZE).length = CHUNK_SIZE
       then decrypt_chunk D ((stream.drop (CHUNK_SIZE * i)).take CHUNK_SIZE)
       else (stream.drop (CHUNK_SIZE * i)).take CHUNK_SIZE) := by
  constructor
  · rfl
  · rw [decrypt_track_chunks_getD D _ 0 i h, Nat.zero_add,
      chunksOf_getD CHUNK_SIZE (by decide) stream i h]

/-- Witness for C1 at a concrete short stream: the single chunk [9, 9, 9] sits
at ordinal 0 (a multiple of 3) but is shorter than 2048 bytes, so it passes
through unmodified even though the block primitive would zero it out. -/
theorem decrypt_track_chunk_selection_witness :
    0 < (chunksOf CHUNK_SIZE [9, 9, 9]).length ∧
    (decrypt_track_chunks (fun _ => [0, 0, 0, 0, 0, 0, 0, 0]) 0
      (chunksOf CHUNK_SIZE [9, 9, 9])).getD 0 [] = [9, 9, 9] := by
  refine ⟨by decide, ?_⟩
  have h := (decrypt_track_chunk_selection (fun _ => [0, 0, 0, 0, 0, 0, 0, 0])
    [9, 9, 9] 0 (by decide)).2
  rw [h]
  decide

/-- C7: the decryptor output has exactly the length of the input, and it is
the in-order concatenation of the per-chunk outputs. -/
theorem decrypt_track_length (D : List Nat → List Nat)
    (hD : ∀ b : List Nat, b.length = BLOCK_SIZE → (D b).length = BLOCK_SIZE)
    (stream : List Nat) :
    (decrypt_track D stream).length = stream.length ∧
    decrypt_track D stream
        = (decrypt_track_chunks D 0 (chunksOf CHUNK_SIZE stream)).flatten := by
  constructor
  · calc (decrypt_track D stream).length
        = (chunksOf CHUNK_SIZE stream).flatten.length :=
          flatten_length_congr _ _ (decrypt_track_chunks_map_length D hD 0 _)
      _ = stream.length := by rw [flatten_chunksOf CHUNK_SIZE (by decide) stream]
  · rfl

/-- Witness for C7 at a concrete stream of 3 bytes. -/
theorem decrypt_track_length_witness :
    (decrypt_track (fun b => b) [1, 2, 3]).length = 3 := by
  have h := (decrypt_track_length (fun b => b) (fun _ hb => hb) [1, 2, 3]).1
  simpa using h

/-- CBC encryption undoes CBC decryption block-wise when the block primitive
pair is inverse on 8-byte blocks, for any chaining value of block size. -/
theorem cbcEncrypt_cbcDecrypt (E D : List Nat → List Nat)
    (hED : ∀ b : List Nat, b.length = BLOCK_SIZE → E (D b) = b)
    (hD : ∀ b : List Nat, b.length = BLOCK_SIZE → (D b).length = BLOCK_SIZE)
    (cs : List (List Nat)) :
    ∀ prev : List Nat, prev.length = BLOCK_SIZE →
    (∀ c ∈ cs, c.length = BLOCK_SIZE) →
    cbcEncryptBlocks E prev (cbcDecryptBlocks D prev cs) = cs := by
  induction cs with
  | nil => intro prev _ _; rfl
  | cons c cs ih =>
    intro prev hprev hall
    have hc : c.length = BLOCK_SIZE := hall c (List.mem_cons_self c cs)
    simp only [cbcDecryptBlocks, cbcEncryptBlocks]
    have hcancel : bxor (bxor (D c) prev) prev = D c :=
      bxor_bxor_cancel (D c) prev (by rw [hD c hc, hprev])
    rw [hcancel, hED c hc]
    exact congrArg (c :: ·) (ih c hc (fun d hd => hall d (List.mem_cons_of_mem c hd)))

/-- CBC re-encryption of a decrypted full chunk with the same fixed IV gives
the chunk back. -/
theorem encrypt_chunk_decrypt_chunk (E D : List Nat → List Nat)
    (hED : ∀ b : List Nat, b.length = BLOCK_SIZE → E (D b) = b)
    (hD : ∀ b : List Nat, b.length = BLOCK_SIZE → (D b).length = BLOCK_SIZE)
    (data : List Nat) (hmod : data.length % BLOCK_SIZE = 0) :
    encrypt_chunk E (decrypt_chunk D data) = data := by
  have hblocks : ∀ c ∈ chunksOf BLOCK_SIZE data, c.length = BLOCK_SIZE :=
    chunksOf_length_of_mod BLOCK_SIZE (by decide) data hmod
  have hdec : ∀ d ∈ cbcDecryptBlocks D blowfishIV (chunksOf BLOCK_SIZE data),
      d.length = BLOCK_SIZE :=
    cbcDecryptBlocks_block_length D hD blowfishIV _ (by decide) hblocks
  show (cbcEncryptBlocks E blowfishIV (chunksOf BLOCK_SIZE
    (cbcDecryptBlocks D blowfishIV (chunksOf BLOCK_SIZE data)).flatten)).flatten = data
  rw [chunksOf_flatten_eq BLOCK_SIZE (by decide) _ hdec,
    cbcEncrypt_cbcDecrypt E D hED hD _ blowfishIV (by decide) hblocks,
    flatten_chunksOf BLOCK_SIZE (by decide) data]

/-- Chunk-wise: re-encrypting right after decrypting, with the same iteration
counter, restores every chunk when all chunks are full. -/
theorem encrypt_track_chunks_decrypt (E D : List Nat → List Nat)
    (hED : ∀ b : List Nat, b.length = BLOCK_SIZE → E (D b) = b)
    (hD : ∀ b : List Nat, b.length = BLOCK_SIZE → (D b).length = BLOCK_SIZE)
    (cs : List (List Nat)) :
    ∀ k : Nat, (∀ c ∈ cs, c.length = CHUNK_SIZE) →
    encrypt_track_chunks E k (decrypt_track_chunks D k cs) = cs := by
  induction cs with
  | nil => intro k _; rfl
  | cons c cs ih =>
    intro k hall
    have hc : c.length = CHUNK_SIZE := hall c (List.mem_cons_self c cs)
    have htail := ih (k + 1) (fun d hd => hall d (List.mem_cons_of_mem c hd))
    by_cases hk : k % 3 = 0
    · have hmod : c.length % BLOCK_SIZE = 0 := by rw [hc]; decide
      have hdeclen : (decrypt_chunk D c).length = CHUNK_SIZE := by
        rw [length_decrypt_chunk D hD c hmod, hc]
      simp only [decrypt_track_chunks, encrypt_track_chunks]
      rw [if_pos (And.intro hk hc), if_pos (And.intro hk hdeclen),
        encrypt_chunk_decrypt_chunk E D hED hD c hmod, htail]
    · have hcond : ¬(k % 3 = 0 ∧ c.length = CHUNK_SIZE) := fun h => hk h.1
      simp only [decrypt_track_chunks, encrypt_track_chunks, if_neg hcond]
      rw [htail]

/-- C4: for a stream whose length is an exact multiple of 2048, decrypting
and then re-encrypting the chunks at ordinals 0, 3, 6, ... with the same
block primitive (in the inverse direction) and the same fixed IV reproduces
the original stream exactly. -/
theorem decrypt_encrypt_roundtrip (E D : List Nat → List Nat)
    (hED : ∀ b : List Nat, b.length = BLOCK_SIZE → E (D b) = b)
    (hD : ∀ b : List Nat, b.length = BLOCK_SIZE → (D b).length = BLOCK_SIZE)
    (stream : List Nat) (hlen : stream.length % CHUNK_SIZE = 0) :
    encrypt_track E (decrypt_track D stream) = stream := by
  have hchunks : ∀ c ∈ chunksOf CHUNK_SIZE stream, c.length = CHUNK_SIZE :=
    chunksOf_length_of_mod CHUNK_SIZE (by decide) stream hlen
  have hdecmem : ∀ d ∈ decrypt_track_chunks D 0 (chunksOf CHUNK_SIZE stream),
      d.length = CHUNK_SIZE := by
    intro d hd
    have hmap := decrypt_track_chunks_map_length D hD 0 (chunksOf CHUNK_SIZE stream)
    have hmem : d.length ∈ (chunksOf CHUNK_SIZE stream).map List.length := by
      rw [← hmap]
      exact List.mem_map_of_mem List.length hd
    obtain ⟨c, hc, hlen2⟩ := List.mem_map.mp hmem
    rw [← hlen2]
    exact hchunks c hc
  show (encrypt_track_chunks E 0 (chunksOf CHUNK_SIZE
    (decrypt_track_chunks D 0 (chunksOf CHUNK_SIZE stream)).flatten)).flatten = stream
  rw [chunksOf_flatten_eq CHUNK_SIZE (by decide) _ hdecmem,
    encrypt_track_chunks_decrypt E D hED hD _ 0 hchunks,
    flatten_chunksOf CHUNK_SIZE (by decide) stream]

/-- Witness for C4: with the identity block primitive (its own inverse) and a
2048-byte stream of 7s, decrypt-then-re-encrypt is the identity. -/
theorem decrypt_encrypt_roundtrip_witness :
    encrypt_track (fun b => b) (decrypt_track (fun b => b) (List.replicate 2048 7))
      = List.replicate 2048 7 :=
  decrypt_encrypt_roundtrip (fun b => b) (fun b => b)
    (fun _ _ => rfl) (fun _ hb => hb) (List.replicate 2048 7)
    (by rw [List.length_replicate]; rfl)

/-! ## MD5 and the Blowfish key derivation (`_generate_blowfish_key`)

The key derivation hashes the decimal string of the track id with MD5
(hashlib.md5), takes the 32-character lowercase hex digest, and XORs
character i, character i+16 and master-key byte i for i in [0, 16).
MD5 is implemented here over byte lists, with 32-bit words as naturals
reduced mod 2^32. -/

/-- The word modulus of MD5 arithmetic, 2^32. -/
def M32 : Nat := 4294967296

/-- Addition mod 2^32. -/
def add32 (a b : Nat) : Nat := (a + b) % M32

/-- Bitwise complement of a 32-bit word. -/
def not32 (x : Nat) : Nat := x ^^^ 4294967295

/-- Left rotation of a 32-bit word. -/
def rotl32 (x s : Nat) : Nat := ((x <<< s) % M32) ||| (x >>> (32 - s))

/-- The 64 MD5 sine-derived round constants. -/
def md5K : List Nat :=
  [3614090360, 3905402710, 606105819, 3250441966, 4118548399, 1200080426,
   2821735955, 4249261313, 1770035416, 2336552879, 4294925233, 2304563134,
   1804603682, 4254626195, 2792965006, 1236535329, 4129170786, 3225465664,
   643717713, 3921069994, 3593408605, 38016083, 3634488961, 3889429448,
   568446438, 3275163606, 4107603335, 1163531501, 2850285829, 4243563512,
   1735328473, 2368359562, 4294588738, 2272392833, 1839030562, 4259657740,
   2763975236, 1272893353, 4139469664, 3200236656, 681279174, 3936430074,
   3572445317, 76029189, 3654602809, 3873151461, 530742520, 3299628645,
   4096336452, 1126891415, 2878612391, 4237533241, 1700485571, 2399980690,
   4293915773, 2240044497, 1873313359, 4264355552, 2734768916, 1309151649,
   4149444226, 3174756917, 718787259, 3951481745]

/-- The 64 MD5 per-round left-rotation amounts. -/
def md5S : List Nat :=
  [7, 12, 17, 22, 7, 12, 17, 22, 7, 12, 17, 22, 7, 12, 17, 22,
   5, 9, 14, 20, 5, 9, 14, 20, 5, 9, 14, 20, 5, 9, 14, 20,
   4, 11, 16, 23, 4, 11, 16, 23, 4, 11, 16, 23, 4, 11, 16, 23,
   6, 10, 15, 21, 6, 10, 15, 21, 6, 10, 15, 21, 6, 10, 15, 21]

/-- A 64-bit quantity as 8 little-endian bytes. -/
def toLEBytes8 (n : Nat) : List Nat :=
  [n % 256, n / 256 % 256, n / 65536 % 256, n / 16777216 % 256,
   n / 4294967296 % 256, n / 1099511627776 % 256,
   n / 281474976710656 % 256, n / 72057594037927936 % 256]

/-- A 32-bit word as 4 little-endian bytes. -/
def toLEBytes4 (w : Nat) : List Nat :=
  [w % 256, w / 256 % 256, w / 65536 % 256, w / 16777216 % 256]

/-- Little-endian bytes to a word. -/
def fromLEBytes (l : List Nat) : Nat := l.foldr (fun b acc => b + 256 * acc) 0

/-- MD5 padding: append the 0x80 marker, zeros to 56 mod 64, and the 64-bit
little-endian bit length of the original message. -/
def md5Pad (msg : List Nat) : List Nat :=
  msg ++ [128] ++ List.replicate ((119 - msg.length % 64) % 64) 0
      ++ toLEBytes8 (msg.length * 8 % 18446744073709551616)

/-- One of the 64 MD5 rounds: mixes one message word into the running state
(a, b, c, d). -/
def md5Round (Mw : List Nat) (st : Nat × Nat × Nat × Nat) (i : Nat) :
    Nat × Nat × Nat × Nat :=
  let a := st.1
  let b := st.2.1
  let c := st.2.2.1
  let d := st.2.2.2
  let fg : Nat × Nat :=
    if i < 16 then ((b &&& c) ||| (not32 b &&& d), i)
    else if i < 32 then ((d &&& b) ||| (not32 d &&& c), (5 * i + 1) % 16)
    else if i < 48 then (b ^^^ c ^^^ d, (3 * i + 5) % 16)
    else (c ^^^ (b ||| not32 d), 7 * i % 16)
  let f := (fg.1 + a + md5K.getD i 0 + Mw.getD fg.2 0) % M32
  (d, add32 b (rotl32 f (md5S.getD i 0)), b, c)

/-- MD5 compression of one 64-byte block into the running state. -/
def md5ProcessBlock (st : Nat × Nat × Nat × Nat) (block : List Nat) :
    Nat × Nat × Nat × Nat :=
  let Mw := (chunksOf 4 block).map fromLEBytes
  let r := (List.range 64).foldl (md5Round Mw) st
  (add32 st.1 r.1, add32 st.2.1 r.2.1, add32 st.2.2.1 r.2.2.1,
   add32 st.2.2.2 r.2.2.2)

/-- The MD5 initial state. -/
def md5Init : Nat × Nat × Nat × Nat := (1732584193, 4023233417, 2562383102, 271733878)

/-- MD5 digest of a byte string: 16 bytes. -/
def md5_digest (msg : List Nat) : List Nat :=
  let final := (chunksOf 64 (md5Pad msg)).foldl md5ProcessBlock md5Init
  toLEBytes4 final.1 ++ toLEBytes4 final.2.1
    ++ toLEBytes4 final.2.2.1 ++ toLEBytes4 final.2.2.2

/-- Character code of the lowercase hex digit of a nibble. -/
def hexChar (n : Nat) : Nat := if n < 10 then 48 + n else 87 + n

/-- The lowercase hex digest as a list of character codes (hexdigest()). -/
def md5_hexdigest (msg : List Nat) : List Nat :=
  (md5_digest msg).map (fun b => [hexChar (b / 16), hexChar (b % 16)]) |>.flatten

/-- Character codes of the decimal representation of a natural number
(bytes([ord(x) for x in str(track_id)])). -/
def str_bytes (n : Nat) : List Nat := (Nat.repr n).data.map Char.toNat

/-- One byte of the derived key:
ord(id_md5[i]) ^ ord(id_md5[i + 16]) ^ ord(master_key[i]), failing (like the
Python IndexError) when an index is out of range. -/
def keyByte (id_md5 master_key : List Nat) (i : Nat) : Option Nat :=
  match id_md5[i]?, id_md5[i + 16]?, master_key[i]? with
  | some a, some b, some c => some (a ^^^ b ^^^ c)
  | _, _, _ => none

/-- A fallible list comprehension over the index range [k, k + n). -/
def traverseIdx (f : Nat → Option Nat) : Nat → Nat → Option (List Nat)
  | _, 0 => some []
  | k, n + 1 =>
    match f k, traverseIdx f (k + 1) n with
    | some x, some xs => some (x :: xs)
    | _, _ => none

/-- Model of `_generate_blowfish_key`: the 16-byte Blowfish key derived from
the MD5 hex digest of the decimal track id and the master key. -/
def generate_blowfish_key (master_key : List Nat) (track_id : Nat) : Option (List Nat) :=
  traverseIdx (keyByte (md5_hexdigest (str_bytes track_id)) master_key) 0 16

/-- The MD5 digest is always 16 bytes. -/
theorem md5_digest_length (msg : List Nat) : (md5_digest msg).length = 16 := by
  unfold md5_digest
  simp only [toLEBytes4, List.length_append, List.length_cons, List.length_nil]

/-- The MD5 hex digest is always 32 characters. -/
theorem md5_hexdigest_length (msg : List Nat) : (md5_hexdigest msg).length = 32 := by
  have H : ∀ l : List Nat,
      ((l.map (fun b => [hexChar (b / 16), hexChar (b % 16)])).flatten).length
        = 2 * l.length := by
    intro l
    induction l with
    | nil => rfl
    | cons b t ih =>
      simp only [List.map_cons, List.flatten_cons, List.length_append, ih,
        List.length_cons]
      simp
      omega
  show ((md5_digest msg).map _).flatten.length = 32
  rw [H, md5_digest_length]

theorem traverseIdx_some (f : Nat → Option Nat) :
    ∀ (n k : Nat), (∀ i, i < n → (f (k + i)).isSome) →
    ∃ r, traverseIdx f k n = some r ∧ r.length = n ∧
      ∀ i, i < n → r.getD i 0 = (f (k + i)).getD 0 := by
  intro n
  induction n with
  | zero =>
    intro k _
    exact ⟨[], rfl, rfl, fun i hi => absurd hi (Nat.not_lt_zero i)⟩
  | succ n ih =>
    intro k h
    have h0 : (f k).isSome := by
      have := h 0 (Nat.succ_pos n)
      simpa using this
    obtain ⟨x, hx⟩ := Option.isSome_iff_exists.mp h0
    obtain ⟨xs, hxs, hlen, hval⟩ := ih (k + 1) (fun i hi => by
      have hh := h (i + 1) (Nat.succ_lt_succ hi)
      have heq : k + (i + 1) = k + 1 + i := by omega
      rw [heq] at hh
      exact hh)
    refine ⟨x :: xs, ?_, by simp [hlen], ?_⟩
    · simp [traverseIdx, hx, hxs]
    · intro i hi
      cases i with
      | zero => simp [hx]
      | succ i =>
        simp only [List.getD_cons_succ]
        rw [hval i (Nat.lt_of_succ_lt_succ hi)]
        have heq : k + 1 + i = k + (i + 1) := by omega
        rw [heq]

theorem traverseIdx_none (f : Nat → Option Nat) :
    ∀ (n k i : Nat), i < n → f (k + i) = none → traverseIdx f k n = none := by
  intro n
  induction n with
  | zero => intro k i hi; exact absurd hi (Nat.not_lt_zero i)
  | succ n ih =>
    intro k i hi hnone
    cases i with
    | zero =>
      rw [Nat.add_zero] at hnone
      simp [traverseIdx, hnone]
    | succ i =>
      have hrec : traverseIdx f (k + 1) n = none := by
        apply ih (k + 1) i (Nat.lt_of_succ_lt_succ hi)
        have heq : k + 1 + i = k + (i + 1) := by omega
        rw [heq]
        exact hnone
      cases hfk : f k <;> simp [traverseIdx, hfk, hrec]

theorem keyByte_eq (id_md5 mk : List Nat) (i : Nat)
    (h1 : i + 16 < id_md5.length) (h2 : i < mk.length) :
    keyByte id_md5 mk i
      = some (id_md5.getD i 0 ^^^ id_md5.getD (i + 16) 0 ^^^ mk.getD i 0) := by
  have e1 : id_md5[i]? = some (id_md5.getD i 0) := by
    rw [List.getElem?_eq_getElem (by omega), List.getD_eq_getElem _ _ (by omega)]
  have e2 : id_md5[i + 16]? = some (id_md5.getD (i + 16) 0) := by
    rw [List.getElem?_eq_getElem h1, List.getD_eq_getElem _ _ h1]
  have e3 : mk[i]? = some (mk.getD i 0) := by
    rw [List.getElem?_eq_getElem h2, List.getD_eq_getElem _ _ h2]
  unfold keyByte
  rw [e1, e2, e3]

theorem keyByte_none (id_md5 mk : List Nat) (i : Nat) (h2 : mk.length ≤ i) :
    keyByte id_md5 mk i = none := by
  have e3 : mk[i]? = none := List.getElem?_eq_none h2
  cases ha : id_md5[i]? <;> cases hb : id_md5[i + 16]? <;>
    simp [keyByte, ha, hb, e3]

/-- C2: for a positive track id and an ASCII master secret of at least 16
bytes, key derivation returns exactly 16 bytes, byte i being the XOR of hex
characters i and i+16 of the MD5 digest of the decimal track id with secret
byte i; it is deterministic (a pure function), and it fails exactly when the
secret is shorter than 16 bytes. -/
theorem generate_blowfish_key_spec (mk : List Nat) (tid : Nat)
    (hpos : 0 < tid) (hascii : ∀ c ∈ mk, c < 128) :
    (16 ≤ mk.length →
      ∃ key, generate_blowfish_key mk tid = some key ∧ key.length = 16 ∧
        ∀ i, i < 16 → key.getD i 0 =
          (md5_hexdigest (str_bytes tid)).getD i 0
            ^^^ (md5_hexdigest (str_bytes tid)).getD (i + 16) 0
            ^^^ mk.getD i 0) ∧
    (generate_blowfish_key mk tid = none ↔ mk.length < 16) ∧
    (∀ mk2 tid2, mk2 = mk → tid2 = tid →
      generate_blowfish_key mk2 tid2 = generate_blowfish_key mk tid) := by
  have hhex : (md5_hexdigest (str_bytes tid)).length = 32 :=
    md5_hexdigest_length (str_bytes tid)
  have hA : 16 ≤ mk.length →
      ∃ key, generate_blowfish_key mk tid = some key ∧ key.length = 16 ∧
        ∀ i, i < 16 → key.getD i 0 =
          (md5_hexdigest (str_bytes tid)).getD i 0
            ^^^ (md5_hexdigest (str_bytes tid)).getD (i + 16) 0
            ^^^ mk.getD i 0 := by
    intro hlen
    have hsome : ∀ i, i < 16 →
        (keyByte (md5_hexdigest (str_bytes tid)) mk (0 + i)).isSome := by
      intro i hi
      rw [Nat.zero_add,
        keyByte_eq _ mk i (by omega) (by omega)]
      rfl
    obtain ⟨r, hr, hrlen, hrval⟩ :=
      traverseIdx_some (keyByte (md5_hexdigest (str_bytes tid)) mk) 16 0 hsome
    refine ⟨r, hr, hrlen, fun i hi => ?_⟩
    rw [hrval i hi, Nat.zero_add,
      keyByte_eq _ mk i (by omega) (by omega)]
    rfl
  refine ⟨hA, ?_, fun mk2 tid2 h1 h2 => by rw [h1, h2]⟩
  constructor
  · intro hnone
    by_contra hge
    push_neg at hge
    obtain ⟨key, hkey, _, _⟩ := hA hge
    rw [hkey] at hnone
    exact Option.noConfusion hnone
  · intro hlt
    apply traverseIdx_none (keyByte (md5_hexdigest (str_bytes tid)) mk)
      16 0 mk.length hlt
    rw [Nat.zero_add]
    exact keyByte_none _ mk mk.length (Nat.le_refl _)

/-- Witness for C2 at track id 1 with the 16-byte ASCII secret
"abcdefghijklmnop". -/
theorem generate_blowfish_key_spec_witness :
    ∃ key, generate_blowfish_key
        [97, 98, 99, 100, 101, 102, 103, 104, 105, 106, 107, 108,
         109, 110, 111, 112] 1 = some key ∧ key.length = 16 ∧
      ∀ i, i < 16 → key.getD i 0 =
        (md5_hexdigest (str_bytes 1)).getD i 0
          ^^^ (md5_hexdigest (str_bytes 1)).getD (i + 16) 0
          ^^^ ([97, 98, 99, 100, 101, 102, 103, 104, 105, 106, 107, 108,
                109, 110, 111, 112] : List Nat).getD i 0 :=
  (generate_blowfish_key_spec
    [97, 98, 99, 100, 101, 102, 103, 104, 105, 106, 107, 108,
     109, 110, 111, 112] 1 (by decide) (by decide)).1 (by decide)

/-! ## Error taxonomy, session setup, and the protocol client

JSON response bodies are modelled structurally with the fields the code
accesses; a `none` field models a missing key (whose access raises a Python
KeyError), and Python list indexing out of range raises IndexError.  Those
two built-in exceptions are not part of the DeezerClientError taxonomy of
exceptions.py. -/

/-- Errors a client call can surface.  The first four mirror the
DeezerClientError subclasses declared in exceptions.py; PyKeyError and
PyIndexError model Python built-in KeyError / IndexError escaping from
dictionary and list indexing. -/
inductive DeezerErr where
  | DeezerAPIError
  | DeezerTrackNotFoundError
  | DeezerURLError
  | DeezerDownloadError
  | PyKeyError
  | PyIndexError
deriving DecidableEq, Repr

/-- Whether an error belongs to the DeezerClientError hierarchy of
exceptions.py (the named client error kinds). -/
def DeezerErr.isClientError : DeezerErr → Bool
  | .DeezerAPIError => true
  | .DeezerTrackNotFoundError => true
  | .DeezerURLError => true
  | .DeezerDownloadError => true
  | .PyKeyError => false
  | .PyIndexError => false

/-- The fields of the `_setup` response body that the code reads: checkForm,
the nested license token, and SESSION_ID.  `none` models a missing key
anywhere along the access path. -/
structure SetupResults where
  checkForm : Option String
  license_token : Option String
  SESSION_ID : Option String
deriving DecidableEq, Repr

/-- A response to the session-setup request: HTTP status and parsed body. -/
structure SetupResponse where
  status : Nat
  results : Option SetupResults
deriving DecidableEq, Repr

/-- The mutable client fields written by `_setup`. -/
structure ClientState where
  api_key : Option String
  license_token : Option String
  headers : Option String
  is_setup : Bool
deriving DecidableEq, Repr

/-- The state of a freshly constructed client (`__init__`). -/
def initialClientState : ClientState :=
  { api_key := none, license_token := none, headers := none, is_setup := false }

/-- Model of `_setup`: the three assignments happen in source order; a
missing key raises KeyError at its access point, leaving earlier assignments
in place; the response's HTTP status code is never inspected. -/
def setup (r : SetupResponse) (s : ClientState) : ClientState × Option DeezerErr :=
  match r.results with
  | none => (s, some .PyKeyError)
  | some res =>
    match res.checkForm with
    | none => (s, some .PyKeyError)
    | some ck =>
      match res.license_token with
      | none => ({ s with api_key := some ck }, some .PyKeyError)
      | some lt =>
        match res.SESSION_ID with
        | none => ({ s with api_key := some ck, license_token := some lt },
                   some .PyKeyError)
        | some sid =>
          ({ s with api_key := some ck, license_token := some lt,
                    headers := some ("sid=" ++ sid), is_setup := true }, none)

/-- Model of `_ensure_setup`: under the setup lock, `_setup` runs exactly
when the client is not yet marked set up. -/
def ensure_setup (r : SetupResponse) (s : ClientState) : ClientState × Option DeezerErr :=
  if s.is_setup then (s, none) else setup r s

/-- Body of the ISRC-lookup response: the code checks for an `error` key and
then reads `id`. -/
structure IsrcBody where
  error : Option String
  id : Option Nat
deriving DecidableEq, Repr

/-- A response to the ISRC-lookup GET request. -/
structure IsrcResponse where
  status : Nat
  body : IsrcBody
deriving DecidableEq, Repr

/-- Model of `_get_id_from_isrc`: non-200 raises DeezerAPIError, a body with
an `error` key raises DeezerTrackNotFoundError, otherwise `json["id"]` is
returned (KeyError if absent). -/
def get_id_from_isrc (r : IsrcResponse) : Except DeezerErr Nat :=
  if r.status ≠ 200 then .error .DeezerAPIError
  else if r.body.error.isSome then .error .DeezerTrackNotFoundError
  else match r.body.id with
    | some i => .ok i
    | none => .error .PyKeyError

/-- The track-metadata results object; the orchestrator later reads its
TRACK_TOKEN field. -/
structure TrackResults where
  TRACK_TOKEN : Option String
deriving DecidableEq, Repr

/-- Body of the track-metadata response: the code only tests for the
presence of a `results` key and returns the whole body. -/
structure TrackBody where
  results : Option TrackResults
deriving DecidableEq, Repr

/-- A response to the track-metadata POST request. -/
structure TrackResponse where
  status : Nat
  body : TrackBody
deriving DecidableEq, Repr

/-- Model of `_get_track`: non-200 raises DeezerAPIError, a body without a
`results` key raises DeezerTrackNotFoundError, otherwise the whole body is
returned. -/
def get_track (r : TrackResponse) : Except DeezerErr TrackBody :=
  if r.status ≠ 200 then .error .DeezerAPIError
  else if r.body.results.isNone then .error .DeezerTrackNotFoundError
  else .ok r.body

/-- One source inside a media entry; `url` may be missing. -/
structure UrlSource where
  url : Option String
deriving DecidableEq, Repr

/-- One media entry of the URL-negotiation response. -/
structure UrlMedia where
  sources : List UrlSource
deriving DecidableEq, Repr

/-- The per-track entry `json["data"][0]` of the URL-negotiation response. -/
structure UrlEntry where
  errors : Option String
  media : List UrlMedia
deriving DecidableEq, Repr

/-- A response to the URL-negotiation POST request; `data` is the array the
code indexes at 0. -/
structure UrlResponse where
  status : Nat
  data : List UrlEntry
deriving DecidableEq, Repr

/-- Model of `_get_url`: non-200 raises DeezerAPIError; an `errors` key in
the per-track entry raises DeezerURLError; an empty `media` array raises
DeezerURLError; otherwise `types[0]["sources"][0]["url"]` is returned, with
IndexError/KeyError when the indexing fails.  The track token is only sent
in the request body and plays no role in response handling, so it is not a
parameter here. -/
def get_url (r : UrlResponse) : Except DeezerErr String :=
  if r.status ≠ 200 then .error .DeezerAPIError
  else match r.data with
    | [] => .error .PyIndexError
    | entry :: _ =>
      if entry.errors.isSome then .error .DeezerURLError
      else match entry.media with
        | [] => .error .DeezerURLError
        | m0 :: _ =>
          match m0.sources with
          | [] => .error .PyIndexError
          | s0 :: _ =>
            match s0.url with
            | some u => .ok u
            | none => .error .PyKeyError

/-- A response to the streamed GET against the negotiated CDN URL. -/
structure StreamResponse where
  status : Nat
  body : List Nat
deriving DecidableEq, Repr

/-- Model of `_decrypt_track` at the network boundary: the Blowfish key is
derived first (IndexError propagates from a short master key), then a
non-200 on the media fetch raises DeezerDownloadError, then the body is
chunk-decrypted.  `D` is the keyed Blowfish block-decryption primitive. -/
def decrypt_track_net (D : List Nat → List Nat → List Nat) (master_key : List Nat)
    (track_id : Nat) (r : StreamResponse) : Except DeezerErr (List Nat) :=
  match generate_blowfish_key master_key track_id with
  | none => .error .PyIndexError
  | some key =>
    if r.status ≠ 200 then .error .DeezerDownloadError
    else .ok (decrypt_track (D key) r.body)

/-- The four network operations of one download, in program order. -/
inductive ApiCall where
  | resolveIsrc
  | getTrackData
  | getTrackUrl
  | streamTrack
deriving DecidableEq, Repr

/-- A mocked backend: the response each endpoint would return. -/
structure Backend where
  isrc_response : IsrcResponse
  track_response : TrackResponse
  url_response : UrlResponse
  stream_response : StreamResponse
deriving DecidableEq, Repr

/-- Model of `download`: the four steps run in source order, each feeding the
next, stopping at the first failure; alongside the result, the list of
operations actually performed is recorded.  Session setup and the rate
limiter are modelled separately (`ensure_setup`); the track token extraction
`track["results"]["TRACK_TOKEN"]` happens in `download` itself and can raise
KeyError before the URL negotiation. -/
def download (D : List Nat → List Nat → List Nat) (master_key : List Nat)
    (b : Backend) : Except DeezerErr (List Nat) × List ApiCall :=
  match get_id_from_isrc b.isrc_response with
  | .error e => (.error e, [.resolveIsrc])
  | .ok track_id =>
    match get_track b.track_response with
    | .error e => (.error e, [.resolveIsrc, .getTrackData])
    | .ok track =>
      match track.results with
      | none => (.error .PyKeyError, [.resolveIsrc, .getTrackData])
      | some res =>
        match res.TRACK_TOKEN with
        | none => (.error .PyKeyError, [.resolveIsrc, .getTrackData])
        | some _ =>
          match get_url b.url_response with
          | .error e => (.error e, [.resolveIsrc, .getTrackData, .getTrackUrl])
          | .ok _ =>
            match decrypt_track_net D master_key track_id b.stream_response with
            | .error e =>
              (.error e, [.resolveIsrc, .getTrackData, .getTrackUrl, .streamTrack])
            | .ok bytes =>
              (.ok bytes, [.resolveIsrc, .getTrackData, .getTrackUrl, .streamTrack])

/-- C3 counterexample: a setup response with HTTP status 500 but a complete
body establishes the session with no error at all — `_setup` never inspects
the status code, so a non-200 response does not surface as a failure and the
session does not remain unestablished. -/
theorem setup_ignores_status_counterexample :
    (setup { status := 500,
             results := some { checkForm := some "ck",
                               license_token := some "lt",
                               SESSION_ID := some "sid" } }
        initialClientState).2 = none ∧
    (setup { status := 500,
             results := some { checkForm := some "ck",
                               license_token := some "lt",
                               SESSION_ID := some "sid" } }
        initialClientState).1.is_setup = true :=
  ⟨rfl, rfl⟩

/-- C3 (amended): session setup ignores the HTTP status; it fails exactly
when an expected field is missing from the body, and that failure is a
Python KeyError (no SessionError type exists in the client).  On failure the
established flag stays false — though earlier token fields may already have
been assigned — and a subsequent ensure_setup call on an unestablished
client retries setup from scratch. -/
theorem setup_failure_behavior (r : SetupResponse) (s : ClientState)
    (hs : s.is_setup = false) :
    (∀ s2 e, setup r s = (s2, some e) →
      e = DeezerErr.PyKeyError ∧ s2.is_setup = false) ∧
    ensure_setup r s = setup r s := by
  refine ⟨?_, by simp [ensure_setup, hs]⟩
  intro s2 e he
  unfold setup at he
  split at he
  · simp only [Prod.mk.injEq, Option.some_inj] at he
    exact ⟨he.2.symm, by rw [← he.1]; exact hs⟩
  · split at he
    · simp only [Prod.mk.injEq, Option.some_inj] at he
      exact ⟨he.2.symm, by rw [← he.1]; exact hs⟩
    · split at he
      · simp only [Prod.mk.injEq, Option.some_inj] at he
        exact ⟨he.2.symm, by rw [← he.1]; exact hs⟩
      · split at he
        · simp only [Prod.mk.injEq, Option.some_inj] at he
          exact ⟨he.2.symm, by rw [← he.1]; exact hs⟩
        · simp at he

/-- Witness for the amended C3 at a concrete response missing the license
token: setup fails with KeyError, leaves the flag down (with the api key
already assigned), and ensure_setup retries. -/
theorem setup_failure_behavior_witness :
    (DeezerErr.PyKeyError = DeezerErr.PyKeyError ∧
      ({ api_key := some "ck", license_token := none, headers := none,
         is_setup := false } : ClientState).is_setup = false) ∧
    ensure_setup { status := 200,
                   results := some { checkForm := some "ck",
                                     license_token := none,
                                     SESSION_ID := some "sid" } }
        initialClientState
      = setup { status := 200,
                results := some { checkForm := some "ck",
                                  license_token := none,
                                  SESSION_ID := some "sid" } }
          initialClientState := by
  have h := setup_failure_behavior
    { status := 200,
      results := some { checkForm := some "ck", license_token := none,
                        SESSION_ID := some "sid" } }
    initialClientState rfl
  exact ⟨h.1 { api_key := some "ck", license_token := none, headers := none,
               is_setup := false } DeezerErr.PyKeyError rfl, h.2⟩

/-- C5: URL negotiation classifies outcomes distinctly: a non-200 status
raises DeezerAPIError; a 200 response whose per-track entry carries an
errors key raises DeezerURLError; a 200 response with an empty media array
raises DeezerURLError; and on success (first media entry whose sources list
is nonempty and whose first source carries a url) that URL is returned. -/
theorem get_url_classification (r : UrlResponse) :
    (r.status ≠ 200 → get_url r = .error .DeezerAPIError) ∧
    (∀ entry rest, r.status = 200 → r.data = entry :: rest →
      entry.errors.isSome → get_url r = .error .DeezerURLError) ∧
    (∀ entry rest, r.status = 200 → r.data = entry :: rest →
      entry.errors = none → entry.media = [] →
      get_url r = .error .DeezerURLError) ∧
    (∀ entry rest m0 ms s0 ss u, r.status = 200 → r.data = entry :: rest →
      entry.errors = none → entry.media = m0 :: ms → m0.sources = s0 :: ss →
      s0.url = some u → get_url r = .ok u) := by
  refine ⟨?_, ?_, ?_, ?_⟩
  · intro hst
    simp [get_url, hst]
  · intro entry rest hst hdata herr
    simp [get_url, hst, hdata, herr]
  · intro entry rest hst hdata herr hmedia
    simp [get_url, hst, hdata, herr, hmedia]
  · intro entry rest m0 ms s0 ss u hst hdata herr hmedia hsources hurl
    simp [get_url, hst, hdata, herr, hmedia, hsources, hurl]

/-- Witness for C5: a 500 response raises DeezerAPIError; a well-formed 200
response yields the first source URL. -/
theorem get_url_classification_witness :
    get_url { status := 500, data := [] } = .error .DeezerAPIError ∧
    get_url { status := 200,
              data := [{ errors := none,
                         media := [{ sources := [{ url := some "u" }] }] }] }
      = .ok "u" := by
  constructor
  · exact (get_url_classification { status := 500, data := [] }).1 (by decide)
  · exact (get_url_classification _).2.2.2
      { errors := none, media := [{ sources := [{ url := some "u" }] }] } []
      { sources := [{ url := some "u" }] } [] { url := some "u" } [] "u"
      rfl rfl rfl rfl rfl rfl

/-- C9 (implicit): in ISRC resolution the status check precedes body
inspection — any non-200 response raises DeezerAPIError even when the body
carries an error key, and DeezerTrackNotFoundError can only arise from a 200
response; in URL negotiation the errors-key check precedes the empty-media
check — a 200 entry carrying an errors key raises DeezerURLError even when
its media array is nonempty. -/
theorem status_and_errors_check_order (ri : IsrcResponse) (ru : UrlResponse) :
    (ri.status ≠ 200 → get_id_from_isrc ri = .error .DeezerAPIError) ∧
    (get_id_from_isrc ri = .error .DeezerTrackNotFoundError → ri.status = 200) ∧
    (∀ entry rest, ru.status = 200 → ru.data = entry :: rest →
      entry.errors.isSome → entry.media ≠ [] →
      get_url ru = .error .DeezerURLError) := by
  refine ⟨?_, ?_, ?_⟩
  · intro hst
    simp [get_id_from_isrc, hst]
  · intro hres
    by_contra hst
    simp [get_id_from_isrc, hst] at hres
  · intro entry rest hst hdata herr _
    simp [get_url, hst, hdata, herr]

/-- Witness for C9: a 404 ISRC response with an error key still raises
DeezerAPIError, and a 200 URL response with both an errors key and nonempty
media raises DeezerURLError. -/
theorem status_and_errors_check_order_witness :
    get_id_from_isrc { status := 404, body := { error := some "e", id := some 1 } }
      = .error .DeezerAPIError ∧
    get_url { status := 200,
              data := [{ errors := some "boom",
                         media := [{ sources := [] }] }] }
      = .error .DeezerURLError := by
  have h := status_and_errors_check_order
    { status := 404, body := { error := some "e", id := some 1 } }
    { status := 200,
      data := [{ errors := some "boom", media := [{ sources := [] }] }] }
  exact ⟨h.1 (by decide),
    h.2.2 { errors := some "boom", media := [{ sources := [] }] } []
      rfl rfl rfl (by decide)⟩

/-- C10 (implicit): URL negotiation is not total on its success path — a 200
response whose entry has no errors key and a nonempty media array whose
first entry has an empty sources list makes `_get_url` raise a Python
IndexError, which is none of the named client error kinds, because the
nonempty-sources success criterion is never checked before indexing. -/
theorem get_url_empty_sources_indexerror :
    get_url { status := 200,
              data := [{ errors := none, media := [{ sources := [] }] }] }
      = .error .PyIndexError ∧
    DeezerErr.PyIndexError.isClientError = false ∧
    DeezerErr.PyKeyError.isClientError = false :=
  ⟨rfl, rfl, rfl⟩

/-- C6: `download` sequences resolve → metadata → URL → stream in order,
records exactly the operations performed, propagates the first failure
unmodified and performs no later operation after a failure; in particular a
200 ISRC response carrying an error key fails with
DeezerTrackNotFoundError after the resolve call alone. -/
theorem download_sequencing (D : List Nat → List Nat → List Nat)
    (mk : List Nat) (b : Backend) :
    (∀ e, get_id_from_isrc b.isrc_response = .error e →
      download D mk b = (.error e, [.resolveIsrc])) ∧
    (b.isrc_response.status = 200 → b.isrc_response.body.error.isSome →
      download D mk b = (.error .DeezerTrackNotFoundError, [.resolveIsrc])) ∧
    (∀ tid e, get_id_from_isrc b.isrc_response = .ok tid →
      get_track b.track_response = .error e →
      download D mk b = (.error e, [.resolveIsrc, .getTrackData])) ∧
    (∀ tid track res tok e, get_id_from_isrc b.isrc_response = .ok tid →
      get_track b.track_response = .ok track →
      track.results = some res → res.TRACK_TOKEN = some tok →
      get_url b.url_response = .error e →
      download D mk b = (.error e, [.resolveIsrc, .getTrackData, .getTrackUrl])) ∧
    (∀ tid track res tok u e, get_id_from_isrc b.isrc_response = .ok tid →
      get_track b.track_response = .ok track →
      track.results = some res → res.TRACK_TOKEN = some tok →
      get_url b.url_response = .ok u →
      decrypt_track_net D mk tid b.stream_response = .error e →
      download D mk b
        = (.error e, [.resolveIsrc, .getTrackData, .getTrackUrl, .streamTrack])) ∧
    (∀ tid track res tok u bytes, get_id_from_isrc b.isrc_response = .ok tid →
      get_track b.track_response = .ok track →
      track.results = some res → res.TRACK_TOKEN = some tok →
      get_url b.url_response = .ok u →
      decrypt_track_net D mk tid b.stream_response = .ok bytes →
      download D mk b
        = (.ok bytes, [.resolveIsrc, .getTrackData, .getTrackUrl, .streamTrack])) := by
  refine ⟨?_, ?_, ?_, ?_, ?_, ?_⟩
  · intro e h1
    simp [download, h1]
  · intro hst herr
    have h1 : get_id_from_isrc b.isrc_response = .error .DeezerTrackNotFoundError := by
      simp [get_id_from_isrc, hst, herr]
    simp [download, h1]
  · intro tid e h1 h2
    simp [download, h1, h2]
  · intro tid track res tok e h1 h2 h3 h4 h5
    simp [download, h1, h2, h3, h4, h5]
  · intro tid track res tok u e h1 h2 h3 h4 h5 h6
    simp [download, h1, h2, h3, h4, h5, h6]
  · intro tid track res tok u bytes h1 h2 h3 h4 h5 h6
    simp [download, h1, h2, h3, h4, h5, h6]

/-- Witness for C6: a backend whose ISRC lookup returns 200 with an error
key makes `download` fail with DeezerTrackNotFoundError after the resolve
call only — no metadata fetch, URL negotiation or streaming happens. -/
theorem download_sequencing_witness :
    download (fun _ block => block) []
      { isrc_response := { status := 200, body := { error := some "no", id := none } },
        track_response := { status := 200, body := { results := none } },
        url_response := { status := 200, data := [] },
        stream_response := { status := 200, body := [] } }
      = (.error .DeezerTrackNotFoundError, [.resolveIsrc]) :=
  (download_sequencing (fun _ block => block) []
    { isrc_response := { status := 200, body := { error := some "no", id := none } },
      track_response := { status := 200, body := { results := none } },
      url_response := { status := 200, data := [] },
      stream_response := { status := 200, body := [] } }).2.1 rfl rfl
